import Mathlib

/-!
Verification of the market-ranking and spread-derivation pipeline of the
kalshi dashboard (src/utils.py).

A pandas DataFrame of market rows is modelled as a list of records, in frame
order; a missing cell (NaN) is modelled as none, and every numeric cell as a
rational number.  The stable multi-column sort performed by
sort_values(["event_ticker", "liquidity"], ascending=[True, False]) (pandas
uses a stable lexsort whenever several sort keys are given) is modelled by
insertion sort under the corresponding total preorder: the output of a stable
sort is uniquely determined by the input and the preorder, so any stable
sorting algorithm is an exact model.
-/

open scoped List

/-- One row of the flat market table handed to get_top_2: the columns of the
raw market record that the pipeline reads.  A missing value (NaN) is none. -/
structure Market where
  event_ticker : Option String
  liquidity : Option ℚ
  liquidity_dollars : Option ℚ
  market_type : Option String
  no_ask : Option ℚ
  no_ask_dollars : Option ℚ
  no_bid : Option ℚ
  no_bid_dollars : Option ℚ
  no_sub_title : Option String
  title : Option String
  yes_ask : Option ℚ
  yes_ask_dollars : Option ℚ
  yes_bid : Option ℚ
  yes_bid_dollars : Option ℚ
  yes_sub_title : Option String
deriving DecidableEq

/-- The event ticker of a row; only used on rows where it is non-null. -/
def tk (m : Market) : String := m.event_ticker.getD ""

/-- The liquidity of a row; only used on rows where it is non-null. -/
def liq (m : Market) : ℚ := m.liquidity.getD 0

/-- A row survives dropna(subset=["event_ticker", "liquidity"]). -/
def qualifies (m : Market) : Bool := m.event_ticker.isSome && m.liquidity.isSome

/-- df.dropna(subset=["event_ticker", "liquidity"]) of get_top_2, line 117. -/
def dropnaEventLiquidity (df : List Market) : List Market := df.filter qualifies

/-- The sort key order of sort_values(["event_ticker", "liquidity"],
ascending=[True, False]): event ticker ascending, then liquidity
descending. -/
def sortRel (a b : Market) : Prop :=
  tk a < tk b ∨ (tk a = tk b ∧ liq b ≤ liq a)

instance instDecSortRel : DecidableRel sortRel := fun a b =>
  decidable_of_iff
    ((tk a).toList < (tk b).toList ∨ (tk a = tk b ∧ liq b ≤ liq a))
    (by rw [sortRel, String.lt_iff_toList_lt])

instance instTransSortRel : IsTrans Market sortRel := by
  constructor
  intro a b c hab hbc
  rcases hab with h1 | ⟨h1e, h1l⟩ <;> rcases hbc with h2 | ⟨h2e, h2l⟩
  · exact Or.inl (lt_trans h1 h2)
  · exact Or.inl (by rw [← h2e]; exact h1)
  · exact Or.inl (by rw [h1e]; exact h2)
  · exact Or.inr ⟨h1e.trans h2e, le_trans h2l h1l⟩

instance instTotalSortRel : IsTotal Market sortRel := by
  constructor
  intro a b
  rcases lt_trichotomy (tk a) (tk b) with h | h | h
  · exact Or.inl (Or.inl h)
  · rcases le_total (liq b) (liq a) with hl | hl
    · exact Or.inl (Or.inr ⟨h, hl⟩)
    · exact Or.inr (Or.inr ⟨h.symm, hl⟩)
  · exact Or.inr (Or.inl h)

/-- Line 117-118 of get_top_2: the dropna followed by the stable sort on
(event_ticker ascending, liquidity descending). -/
def sortedDF (df : List Market) : List Market :=
  List.insertionSort sortRel (dropnaEventLiquidity df)

/-- groupby("event_ticker").head(2), line 119-120: keep, in frame order, the
first two rows of each event-ticker group; seen records the tickers of the
rows already kept. -/
def groupHead2Aux : List String → List Market → List Market
  | _, [] => []
  | seen, m :: rest =>
    if seen.count (tk m) < 2 then m :: groupHead2Aux (tk m :: seen) rest
    else groupHead2Aux seen rest

/-- The frame named top2 in get_top_2 after line 121. -/
def top2 (df : List Market) : List Market := groupHead2Aux [] (sortedDF df)

/-- groupby("event_ticker").cumcount() + 1, line 123: each row of top2 paired
with one plus the number of earlier top2 rows of the same event ticker. -/
def cumcountAux : List Market → List Market → List (Market × Nat)
  | _, [] => []
  | prev, m :: rest =>
    (m, prev.countP (fun x => tk x == tk m) + 1) :: cumcountAux (prev ++ [m]) rest

/-- The frame top2 with its m_rank column, after line 123. -/
def ranked (df : List Market) : List (Market × Nat) := cumcountAux [] (top2 df)

/-- One cell block of the pivot of line 143-145: the market stored at row
index e and column rank r of the wide frame, if any.  The pivot key
(event_ticker, m_rank) is unique in top2, so find? is a faithful model of the
pivot cell lookup. -/
def pivotCell (df : List Market) (e : String) (r : Nat) : Option Market :=
  ((ranked df).find? (fun p => tk p.1 == e && p.2 == r)).map Prod.fst

/-- The row index of the pivoted wide frame: the distinct event tickers of
top2.  top2 is sorted by ticker, so removing duplicates yields the ascending
index that pandas pivot produces. -/
def pivotIndex (df : List Market) : List String :=
  ((top2 df).map tk).dedup

/-- One row of the final wide frame of get_top_2: the eleven columns kept and
reordered by lines 151-166 (the event ticker is the row key, not a column). -/
structure WideRow where
  title_m1 : Option String
  yes_sub_title_m1 : Option String
  yes_bid_m1 : Option ℚ
  yes_ask_m1 : Option ℚ
  no_bid_m1 : Option ℚ
  no_ask_m1 : Option ℚ
  yes_sub_title_m2 : Option String
  yes_bid_m2 : Option ℚ
  yes_ask_m2 : Option ℚ
  no_bid_m2 : Option ℚ
  no_ask_m2 : Option ℚ
deriving DecidableEq

/-- The output row of get_top_2 for event ticker e: each cell is the stated
field of the market in the corresponding pivot slot, none when the slot is
empty or the field itself is null.  The trailing pd.to_numeric(...,
errors="coerce") of lines 178-179 is the identity here, since the cells are
already numeric-or-null. -/
def mkWideRow (df : List Market) (e : String) : WideRow where
  title_m1 := (pivotCell df e 1).bind Market.title
  yes_sub_title_m1 := (pivotCell df e 1).bind Market.yes_sub_title
  yes_bid_m1 := (pivotCell df e 1).bind Market.yes_bid
  yes_ask_m1 := (pivotCell df e 1).bind Market.yes_ask
  no_bid_m1 := (pivotCell df e 1).bind Market.no_bid
  no_ask_m1 := (pivotCell df e 1).bind Market.no_ask
  yes_sub_title_m2 := (pivotCell df e 2).bind Market.yes_sub_title
  yes_bid_m2 := (pivotCell df e 2).bind Market.yes_bid
  yes_ask_m2 := (pivotCell df e 2).bind Market.yes_ask
  no_bid_m2 := (pivotCell df e 2).bind Market.no_bid
  no_ask_m2 := (pivotCell df e 2).bind Market.no_ask

/-- get_top_2, lines 116-181.  The pivot of line 143 creates a column block
for rank r only when some row of top2 carries m_rank = r; the column
selection wide.loc[:, [...]] of lines 151-166 names six rank-1 and five
rank-2 columns, and pandas .loc raises KeyError when any requested label is
absent.  So the function succeeds exactly when both rank 1 and rank 2 occur
in top2, and raises otherwise (in particular on an empty input frame). -/
def get_top_2 (df : List Market) : Except String (List (String × WideRow)) :=
  if ((ranked df).any fun p => p.2 == 1) && ((ranked df).any fun p => p.2 == 2) then
    .ok ((pivotIndex df).map fun e => (e, mkWideRow df e))
  else
    .error "KeyError"

/-- The rows of the sorted frame that belong to event ticker e; used to state
and prove properties of the ranking. -/
def groupSorted (df : List Market) (e : String) : List Market :=
  (sortedDF df).filter (fun m => tk m == e)

/-- Helper for stating the cumcount lemmas: a list of markets paired with
consecutive ranks starting at k. -/
def withRanks : Nat → List Market → List (Market × Nat)
  | _, [] => []
  | k, m :: rest => (m, k) :: withRanks (k + 1) rest

/-- Elementwise subtraction of two nullable columns: null if either operand
is null (pandas NaN propagation). -/
def optSub : Option ℚ → Option ℚ → Option ℚ
  | some a, some b => some (a - b)
  | _, _ => none

/-- Elementwise division of two nullable columns: null if either operand is
null (pandas NaN propagation); only used where the divisor is nonzero. -/
def optDiv : Option ℚ → Option ℚ → Option ℚ
  | some a, some b => some (a / b)
  | _, _ => none

/-- Elementwise average of two nullable columns: null if either operand is
null (pandas NaN propagation). -/
def optAvg : Option ℚ → Option ℚ → Option ℚ
  | some a, some b => some ((a + b) / 2)
  | _, _ => none

/-- A row of add_spread_col's output: the input row plus the four derived
columns of lines 194-206. -/
structure AnnotatedRow extends WideRow where
  yes_spread_m1 : Option ℚ
  yes_spread_m1_percentage : Option ℚ
  midprice_m1 : Option ℚ
  Liquidity_Rating : String
deriving DecidableEq

/-- The per-row action of add_spread_col (lines 184-208).
yes_spread_m1 = yes_ask_m1 - yes_bid_m1 elementwise.
mask = df["yes_ask_m1"].ne(0) & df["yes_ask_m1"].notna(); note NaN.ne(0) is
True in pandas, so the conjunction means: non-null and nonzero.
yes_spread_m1_percentage is initialised to 0.0 and overwritten with
spread / ask on mask rows (the quotient is NaN when the spread is NaN).
midprice_m1 = (yes_bid_m1 + no_bid_m1) / 2 elementwise.
Liquidity_Rating = np.where(spread <= 0.02, "High", "Low"); a NaN spread
compares False, hence "Low". -/
def annotateRow (r : WideRow) : AnnotatedRow :=
  let spread := optSub r.yes_ask_m1 r.yes_bid_m1
  let mask : Bool :=
    (match r.yes_ask_m1 with
      | some a => decide (a ≠ 0)
      | none => true) && r.yes_ask_m1.isSome
  { r with
    yes_spread_m1 := spread
    yes_spread_m1_percentage := if mask then optDiv spread r.yes_ask_m1 else some 0
    midprice_m1 := optAvg r.yes_bid_m1 r.no_bid_m1
    Liquidity_Rating :=
      if (match spread with
        | some s => decide (s ≤ 2 / 100)
        | none => false) then "High" else "Low" }

/-- add_spread_col, lines 184-208: the derived columns are computed
elementwise, so the frame operation is the row map. -/
def add_spread_col (df : List WideRow) : List AnnotatedRow := df.map annotateRow

/-- A concrete market row of event E1 with the largest liquidity. -/
def mE1a : Market where
  event_ticker := some "E1"
  liquidity := some 100
  liquidity_dollars := none
  market_type := none
  no_ask := some (60 / 100)
  no_ask_dollars := none
  no_bid := some (55 / 100)
  no_bid_dollars := none
  no_sub_title := some "ns1"
  title := some "A1"
  yes_ask := some (45 / 100)
  yes_ask_dollars := none
  yes_bid := some (40 / 100)
  yes_bid_dollars := none
  yes_sub_title := some "ys1"

/-- A concrete market row of event E1 with the second largest liquidity. -/
def mE1b : Market where
  event_ticker := some "E1"
  liquidity := some 50
  liquidity_dollars := none
  market_type := none
  no_ask := some (70 / 100)
  no_ask_dollars := none
  no_bid := some (65 / 100)
  no_bid_dollars := none
  no_sub_title := none
  title := some "B1"
  yes_ask := some (35 / 100)
  yes_ask_dollars := none
  yes_bid := some (30 / 100)
  yes_bid_dollars := none
  yes_sub_title := some "ys2"

/-- A concrete market row of event E1 tied in liquidity with mE1b. -/
def mE1c : Market :=
  { mE1b with title := some "C1", yes_sub_title := some "ys3" }

/-- A concrete market row of event E2, the only one of its event. -/
def mE2a : Market where
  event_ticker := some "E2"
  liquidity := some 70
  liquidity_dollars := none
  market_type := none
  no_ask := some (90 / 100)
  no_ask_dollars := none
  no_bid := some (80 / 100)
  no_bid_dollars := none
  no_sub_title := none
  title := some "A2"
  yes_ask := some (20 / 100)
  yes_ask_dollars := none
  yes_bid := some (10 / 100)
  yes_bid_dollars := none
  yes_sub_title := some "ys4"

/-- A concrete row with a null event ticker (dropped by dropna). -/
def mNoTk : Market where
  event_ticker := none
  liquidity := some 5
  liquidity_dollars := none
  market_type := none
  no_ask := none
  no_ask_dollars := none
  no_bid := none
  no_bid_dollars := none
  no_sub_title := none
  title := some "X"
  yes_ask := none
  yes_ask_dollars := none
  yes_bid := none
  yes_bid_dollars := none
  yes_sub_title := none

/-- A concrete row of event E3 with null liquidity (dropped by dropna). -/
def mNoLiq : Market :=
  { mNoTk with event_ticker := some "E3", liquidity := none, title := some "Y" }

/-- Concrete input frame: two E1 markets, one E2 market, two dropped rows. -/
def dfA : List Market := [mE2a, mE1a, mE1b, mNoTk, mNoLiq]

/-- Concrete input frame with a liquidity tie between mE1b and mE1c. -/
def dfB : List Market := [mE1a, mE1b, mE1c]

/-- Concrete input frame where event E2 has exactly one qualifying market. -/
def dfC : List Market := [mE2a, mE1a, mE1b]

/-- The expected output row of dfA for event E1. -/
def wE1 : WideRow where
  title_m1 := some "A1"
  yes_sub_title_m1 := some "ys1"
  yes_bid_m1 := some (40 / 100)
  yes_ask_m1 := some (45 / 100)
  no_bid_m1 := some (55 / 100)
  no_ask_m1 := some (60 / 100)
  yes_sub_title_m2 := some "ys2"
  yes_bid_m2 := some (30 / 100)
  yes_ask_m2 := some (35 / 100)
  no_bid_m2 := some (65 / 100)
  no_ask_m2 := some (70 / 100)

/-- The expected output row of dfA (and dfC) for event E2: the single
qualifying market fills the rank-1 cells and the rank-2 cells are null. -/
def wE2 : WideRow where
  title_m1 := some "A2"
  yes_sub_title_m1 := some "ys4"
  yes_bid_m1 := some (10 / 100)
  yes_ask_m1 := some (20 / 100)
  no_bid_m1 := some (80 / 100)
  no_ask_m1 := some (90 / 100)
  yes_sub_title_m2 := none
  yes_bid_m2 := none
  yes_ask_m2 := none
  no_bid_m2 := none
  no_ask_m2 := none

/-- The expected full output of get_top_2 on dfA. -/
def outA : List (String × WideRow) := [("E1", wE1), ("E2", wE2)]

/-- A wide row with a crossed book: bid above ask. -/
def crossedRow : WideRow where
  title_m1 := none
  yes_sub_title_m1 := none
  yes_bid_m1 := some (40 / 100)
  yes_ask_m1 := some (30 / 100)
  no_bid_m1 := none
  no_ask_m1 := none
  yes_sub_title_m2 := none
  yes_bid_m2 := none
  yes_ask_m2 := none
  no_bid_m2 := none
  no_ask_m2 := none

/-- A wide row with a zero ask and bid 5. -/
def zeroAskRow : WideRow :=
  { crossedRow with yes_ask_m1 := some 0, yes_bid_m1 := some 5 }

/-- A wide row whose spread is exactly 0.02. -/
def boundHighRow : WideRow :=
  { crossedRow with yes_ask_m1 := some (2 / 100), yes_bid_m1 := some 0 }

/-- A wide row whose spread is exactly 0.0201. -/
def boundLowRow : WideRow :=
  { crossedRow with yes_ask_m1 := some (201 / 10000), yes_bid_m1 := some 0 }

/-- A wide row with a null ask, hence a null spread. -/
def nullAskRow : WideRow :=
  { crossedRow with yes_ask_m1 := none, yes_bid_m1 := some 5 }

/-- The sorted frame is pairwise ordered by the sort key. -/
theorem sortedDF_pairwise (df : List Market) : (sortedDF df).Pairwise sortRel :=
  List.sorted_insertionSort sortRel (dropnaEventLiquidity df)

/-- Sorting permutes the filtered frame. -/
theorem sortedDF_perm (df : List Market) :
    sortedDF df ~ dropnaEventLiquidity df :=
  List.perm_insertionSort sortRel (dropnaEventLiquidity df)

/-- groupby head keeps a subsequence of the frame. -/
theorem groupHead2Aux_sublist : ∀ (seen : List String) (l : List Market),
    groupHead2Aux seen l <+ l
  | _, [] => List.Sublist.refl _
  | seen, m :: rest => by
    rw [groupHead2Aux]
    split
    · exact (groupHead2Aux_sublist _ rest).cons₂ m
    · exact (groupHead2Aux_sublist seen rest).cons m

/-- top2 is a subsequence of the sorted frame. -/
theorem top2_sublist (df : List Market) : top2 df <+ sortedDF df :=
  groupHead2Aux_sublist [] (sortedDF df)

/-- The rows of event ticker e kept by groupby head are the first
2 - seen.count e rows of ticker e of the input, in order. -/
theorem groupHead2Aux_filter : ∀ (l : List Market) (seen : List String) (e : String),
    (groupHead2Aux seen l).filter (fun m => tk m == e) =
      (l.filter (fun m => tk m == e)).take (2 - seen.count e)
  | [], _, _ => by simp [groupHead2Aux]
  | m :: rest, seen, e => by
    rw [groupHead2Aux]
    by_cases he : tk m = e
    · subst he
      by_cases hc : seen.count (tk m) < 2
      · rw [if_pos hc, List.filter_cons_of_pos (by simp), List.filter_cons_of_pos (by simp)]
        rw [groupHead2Aux_filter rest (tk m :: seen) (tk m)]
        rw [List.count_cons_self]
        have h2 : 2 - seen.count (tk m) = (2 - (seen.count (tk m) + 1)) + 1 := by omega
        rw [h2, List.take_succ_cons]
      · rw [if_neg hc, List.filter_cons_of_pos (by simp)]
        rw [groupHead2Aux_filter rest seen (tk m)]
        have h0 : 2 - seen.count (tk m) = 0 := by omega
        rw [h0, List.take_zero, List.take_zero]
    · have hbe : ¬ ((tk m == e) = true) := by simp [he]
      by_cases hc : seen.count (tk m) < 2
      · rw [if_pos hc, List.filter_cons_of_neg (by simpa using hbe),
          List.filter_cons_of_neg (by simpa using hbe)]
        rw [groupHead2Aux_filter rest (tk m :: seen) e]
        rw [List.count_cons_of_ne (Ne.symm he)]
      · rw [if_neg hc, List.filter_cons_of_neg (by simpa using hbe)]
        exact groupHead2Aux_filter rest seen e

/-- The rows of ticker e of top2 are the first two rows of ticker e of the
sorted frame. -/
theorem top2_filter (df : List Market) (e : String) :
    (top2 df).filter (fun m => tk m == e) = (groupSorted df e).take 2 := by
  rw [top2, groupHead2Aux_filter (sortedDF df) [] e, groupSorted]
  rfl

/-- The rows of ticker e of the cumcount frame are the ticker-e rows of the
input, ranked consecutively starting after the ticker-e rows of prev. -/
theorem cumcountAux_filter : ∀ (l prev : List Market) (e : String),
    (cumcountAux prev l).filter (fun p => tk p.1 == e) =
      withRanks (prev.countP (fun x => tk x == e) + 1) (l.filter (fun m => tk m == e))
  | [], _, _ => by simp [cumcountAux, withRanks]
  | m :: rest, prev, e => by
    rw [cumcountAux]
    by_cases he : tk m = e
    · subst he
      rw [List.filter_cons_of_pos (by simp), List.filter_cons_of_pos (by simp)]
      rw [withRanks]
      rw [cumcountAux_filter rest (prev ++ [m]) (tk m)]
      rw [List.countP_append]
      simp [List.countP_cons]
    · have hbe : ¬ ((tk m == e) = true) := by simp [he]
      rw [List.filter_cons_of_neg (by simpa using hbe),
        List.filter_cons_of_neg (by simpa using hbe)]
      rw [cumcountAux_filter rest (prev ++ [m]) e]
      rw [List.countP_append]
      simp [List.countP_cons, he]

/-- Searching a ranked frame for (ticker, rank) is searching the ticker's
rows for the rank. -/
theorem find?_rank_filter (l : List (Market × Nat)) (e : String) (r : Nat) :
    l.find? (fun p => tk p.1 == e && p.2 == r) =
      (l.filter (fun p => tk p.1 == e)).find? (fun p => p.2 == r) := by
  induction l with
  | nil => rfl
  | cons p rest ih =>
    by_cases h1 : (tk p.1 == e) = true <;> by_cases h2 : (p.2 == r) = true <;>
      simp [List.filter_cons, List.find?_cons, h1, h2, ih]

/-- Looking up rank r in a consecutively ranked list is indexing. -/
theorem withRanks_find? : ∀ (l : List Market) (k r : Nat),
    (withRanks k l).find? (fun p => p.2 == r) =
      if k ≤ r then (l[r - k]?).map (fun m => (m, r)) else none
  | [], k, r => by simp [withRanks]
  | m :: rest, k, r => by
    rw [withRanks]
    by_cases hkr : k = r
    · subst hkr
      rw [List.find?_cons_of_pos _ (by simp)]
      simp
    · rw [List.find?_cons_of_neg _ (by simp [hkr])]
      rw [withRanks_find? rest (k + 1) r]
      by_cases hlt : k ≤ r
      · have hk1 : k + 1 ≤ r := by omega
        rw [if_pos hk1, if_pos hlt]
        have hrk : r - k = (r - (k + 1)) + 1 := by omega
        rw [hrk, List.getElem?_cons_succ]
      · have hk1 : ¬ k + 1 ≤ r := by omega
        rw [if_neg hk1, if_neg hlt]

/-- The pivot cell of event e and rank r + 1 is the r-th entry of the first
two rows of the event's group in the sorted frame. -/
theorem pivotCell_eq_groupSorted (df : List Market) (e : String) (r : Nat) :
    pivotCell df e (r + 1) = ((groupSorted df e).take 2)[r]? := by
  rw [pivotCell, ranked, find?_rank_filter, cumcountAux_filter, top2_filter]
  have h0 : (([] : List Market).countP (fun x => tk x == e)) = 0 := rfl
  rw [h0, withRanks_find?, if_pos (by omega)]
  have h1 : r + 1 - 1 = r := by omega
  rw [h1]
  cases ((groupSorted df e).take 2)[r]? <;> simp

/-- Within one event group of the sorted frame, liquidity is descending. -/
theorem groupSorted_pairwise (df : List Market) (e : String) :
    (groupSorted df e).Pairwise (fun a b => liq b ≤ liq a) := by
  have h2 : (groupSorted df e).Pairwise sortRel :=
    (sortedDF_pairwise df).sublist (List.filter_sublist (sortedDF df))
  refine List.Pairwise.imp_of_mem ?_ h2
  intro a b ha hb hr
  have ea : tk a = e := by simpa using (List.mem_filter.mp ha).2
  have eb : tk b = e := by simpa using (List.mem_filter.mp hb).2
  rcases hr with h | ⟨_, hle⟩
  · exact absurd (ea.trans eb.symm) (ne_of_lt h)
  · exact hle

/-- The event group of the sorted frame permutes the event's qualifying rows
of the input frame. -/
theorem groupSorted_perm (df : List Market) (e : String) :
    groupSorted df e ~ (dropnaEventLiquidity df).filter (fun m => tk m == e) :=
  (sortedDF_perm df).filter (fun m => tk m == e)

/-- Membership in an event group of the sorted frame. -/
theorem mem_groupSorted (df : List Market) (e : String) (m : Market) :
    m ∈ groupSorted df e ↔ (m ∈ dropnaEventLiquidity df ∧ tk m = e) := by
  rw [(groupSorted_perm df e).mem_iff, List.mem_filter]
  simp

/-- The ticker multiset of top2 covers exactly the qualifying tickers. -/
theorem mem_map_tk_top2 (df : List Market) (e : String) :
    e ∈ (top2 df).map tk ↔ e ∈ (dropnaEventLiquidity df).map tk := by
  constructor
  · intro h
    obtain ⟨m, hm, hmt⟩ := List.mem_map.mp h
    have hs : m ∈ sortedDF df := (top2_sublist df).subset hm
    have hd : m ∈ dropnaEventLiquidity df := (sortedDF_perm df).mem_iff.mp hs
    exact List.mem_map.mpr ⟨m, hd, hmt⟩
  · intro h
    obtain ⟨m, hm, hmt⟩ := List.mem_map.mp h
    have hg : m ∈ groupSorted df e := (mem_groupSorted df e m).mpr ⟨hm, hmt⟩
    obtain ⟨m0, t, heq⟩ : ∃ m0 t, groupSorted df e = m0 :: t := by
      cases hq : groupSorted df e with
      | nil => rw [hq] at hg; cases hg
      | cons m0 t => exact ⟨m0, t, rfl⟩
    have hm0 : m0 ∈ (top2 df).filter (fun m => tk m == e) := by
      rw [top2_filter, heq]
      simp
    have hm0t : m0 ∈ top2 df := List.mem_of_mem_filter hm0
    have hm0e : tk m0 = e := by
      have := (List.mem_filter.mp hm0).2
      simpa using this
    exact List.mem_map.mpr ⟨m0, hm0t, hm0e⟩

/-- The pivot row index has no duplicate tickers. -/
theorem pivotIndex_nodup (df : List Market) : (pivotIndex df).Nodup :=
  List.nodup_dedup _

/-- The pivot row index lists tickers in strictly ascending order. -/
theorem pivotIndex_pairwise_lt (df : List Market) :
    (pivotIndex df).Pairwise (· < ·) := by
  have ht2 : (top2 df).Pairwise sortRel :=
    (sortedDF_pairwise df).sublist (top2_sublist df)
  have hmap : ((top2 df).map tk).Pairwise (· ≤ ·) := by
    rw [List.pairwise_map]
    refine ht2.imp ?_
    intro a b hr
    rcases hr with h | ⟨h, _⟩
    · exact le_of_lt h
    · exact le_of_eq h
  have hd : (pivotIndex df).Pairwise (· ≤ ·) :=
    hmap.sublist (List.dedup_sublist _)
  have hnd : (pivotIndex df).Pairwise (· ≠ ·) := pivotIndex_nodup df
  exact (hd.and hnd).imp (fun h => lt_of_le_of_ne h.1 h.2)

/-- Membership in the pivot row index. -/
theorem mem_pivotIndex (df : List Market) (e : String) :
    e ∈ pivotIndex df ↔ e ∈ (dropnaEventLiquidity df).map tk := by
  rw [pivotIndex, List.mem_dedup]
  exact mem_map_tk_top2 df e

/-- If get_top_2 succeeds, its output is the pivot index traversal. -/
theorem get_top_2_ok_eq (df : List Market) (out : List (String × WideRow))
    (h : get_top_2 df = Except.ok out) :
    out = (pivotIndex df).map fun e => (e, mkWideRow df e) := by
  rw [get_top_2] at h
  by_cases hc : (((ranked df).any fun p => p.2 == 1) &&
      ((ranked df).any fun p => p.2 == 2)) = true
  · rw [if_pos hc] at h
    injection h with h'
    exact h'.symm
  · rw [if_neg hc] at h
    exact Except.noConfusion h

/-- C6: for every row of the annotator's input, yes_spread_m1 equals
yes_ask_m1 minus yes_bid_m1 computed elementwise, and is null when either
operand is null; a crossed-book row (bid 0.40 above ask 0.30) keeps its
negative spread -0.10 unchanged, with no clamping. -/
theorem add_spread_col_spread :
    (∀ df : List WideRow, add_spread_col df = df.map annotateRow) ∧
    (∀ r : WideRow, (annotateRow r).yes_spread_m1 = optSub r.yes_ask_m1 r.yes_bid_m1) ∧
    (∀ a b : ℚ, optSub (some a) (some b) = some (a - b)) ∧
    (∀ x : Option ℚ, optSub none x = none ∧ optSub x none = none) ∧
    (annotateRow crossedRow).yes_spread_m1 = some (-(10 / 100) : ℚ) := by
  refine ⟨fun df => rfl, fun r => rfl, fun a b => rfl, fun x => ⟨rfl, ?_⟩, ?_⟩
  · cases x <;> rfl
  · with_unfolding_all rfl

/-- C7: for every row, yes_spread_m1_percentage is the spread divided by
yes_ask_m1 on rows whose yes_ask_m1 is non-null and nonzero, and 0.0 on all
other rows; the row with yes_ask_m1 = 0 and yes_bid_m1 = 5 gets
yes_spread_m1 = -5 and yes_spread_m1_percentage = 0.0. -/
theorem add_spread_col_percentage :
    (∀ r : WideRow,
      (annotateRow r).yes_spread_m1_percentage =
        if r.yes_ask_m1 ≠ none ∧ r.yes_ask_m1 ≠ some 0 then
          optDiv (annotateRow r).yes_spread_m1 r.yes_ask_m1
        else some 0) ∧
    (annotateRow zeroAskRow).yes_spread_m1 = some (-5) ∧
    (annotateRow zeroAskRow).yes_spread_m1_percentage = some 0 := by
  refine ⟨?_, by with_unfolding_all rfl, by with_unfolding_all rfl⟩
  intro r
  cases hask : r.yes_ask_m1 with
  | none => simp [annotateRow, hask]
  | some a =>
    by_cases ha : a = 0
    · subst ha
      simp [annotateRow, hask]
    · simp [annotateRow, hask, ha]

/-- C8: Liquidity_Rating is "High" exactly when the spread is non-null and
at most 0.02, "Low" otherwise; a spread of exactly 0.02 rates "High", a
spread of 0.0201 rates "Low", and a null spread rates "Low". -/
theorem add_spread_col_rating :
    (∀ r : WideRow,
      (((annotateRow r).Liquidity_Rating = "High" ↔
        (∃ s : ℚ, (annotateRow r).yes_spread_m1 = some s ∧ s ≤ 2 / 100)) ∧
      ((annotateRow r).Liquidity_Rating = "High" ∨
        (annotateRow r).Liquidity_Rating = "Low"))) ∧
    (annotateRow boundHighRow).Liquidity_Rating = "High" ∧
    (annotateRow boundLowRow).Liquidity_Rating = "Low" ∧
    (annotateRow nullAskRow).Liquidity_Rating = "Low" := by
  refine ⟨?_, by with_unfolding_all rfl, by with_unfolding_all rfl,
    by with_unfolding_all rfl⟩
  intro r
  cases hsp : optSub r.yes_ask_m1 r.yes_bid_m1 with
  | none =>
    constructor
    · simp only [annotateRow, hsp]
      constructor
      · intro h
        exact absurd h (by decide)
      · rintro ⟨s, hs, _⟩
        exact Option.noConfusion hs
    · simp [annotateRow, hsp]
  | some s =>
    by_cases hle : s ≤ 2 / 100
    · constructor
      · simp only [annotateRow, hsp]
        constructor
        · intro _
          exact ⟨s, rfl, hle⟩
        · intro _
          simp [hle]
      · simp [annotateRow, hsp, hle]
    · constructor
      · simp only [annotateRow, hsp]
        constructor
        · intro h
          rw [if_neg (by simpa using hle)] at h
          exact absurd h (by decide)
        · rintro ⟨s2, hs2, hle2⟩
          injection hs2 with hs2
          exact absurd (hs2 ▸ hle2) hle
      · simp [annotateRow, hsp, hle]

/-- C9: the annotator adds exactly the four derived columns (the AnnotatedRow
extension of WideRow), leaves every pre-existing column of every row and the
row count unchanged, and midprice_m1 is the average of yes_bid_m1 and
no_bid_m1, null if either is null. -/
theorem add_spread_col_frame :
    (∀ df : List WideRow, (add_spread_col df).length = df.length ∧
      (add_spread_col df).map AnnotatedRow.toWideRow = df) ∧
    (∀ r : WideRow, (annotateRow r).toWideRow = r ∧
      (annotateRow r).midprice_m1 = optAvg r.yes_bid_m1 r.no_bid_m1) ∧
    (∀ a b : ℚ, optAvg (some a) (some b) = some ((a + b) / 2)) ∧
    (∀ x : Option ℚ, optAvg none x = none ∧ optAvg x none = none) := by
  refine ⟨fun df => ⟨by simp [add_spread_col], ?_⟩, fun r => ⟨rfl, rfl⟩,
    fun a b => rfl, fun x => ⟨rfl, by cases x <;> rfl⟩⟩
  rw [add_spread_col, List.map_map]
  have hcomp : AnnotatedRow.toWideRow ∘ annotateRow = id := funext fun r => rfl
  rw [hcomp, List.map_id]

/-- C3: the claim says an empty input table passes through get_top_2 and
add_spread_col as an empty table without error.  add_spread_col does
propagate emptiness, but on the empty table the pivot of get_top_2 produces
no columns at all, so the wide.loc column selection raises KeyError. -/
theorem get_top_2_empty_raises :
    get_top_2 [] = Except.error "KeyError" ∧ add_spread_col [] = [] :=
  ⟨by with_unfolding_all rfl, rfl⟩

/-- C4: the claim says an event with exactly one qualifying market yields a
row carrying that market's values in the rank-1 cells and nulls in the five
rank-2 cells, and never raises, on every input.  When no event of the table
has two qualifying markets the pivot creates no rank-2 columns and the
wide.loc selection raises KeyError; when some other event does, the
single-market event's row is exactly as claimed. -/
theorem get_top_2_single_market :
    get_top_2 [mE2a] = Except.error "KeyError" ∧
    pivotCell dfC "E2" 1 = some mE2a ∧
    pivotCell dfC "E2" 2 = none ∧
    mkWideRow dfC "E2" = wE2 ∧
    get_top_2 dfC = Except.ok [("E1", wE1), ("E2", wE2)] :=
  ⟨by with_unfolding_all rfl, by with_unfolding_all rfl, by with_unfolding_all rfl,
    by with_unfolding_all rfl, by with_unfolding_all rfl⟩

/-- C1: for every input table and every event ticker with at least two
qualifying markets, get_top_2 succeeds and produces a row for that event;
the rank-1 slot holds a market of maximal liquidity among the event's
qualifying markets and the rank-2 slot's liquidity does not exceed it. -/
theorem get_top_2_slot1_liq_ge_slot2 (df : List Market) (e : String)
    (h2 : 2 ≤ ((dropnaEventLiquidity df).filter (fun m => tk m == e)).length) :
    ∃ out m1 m2, get_top_2 df = Except.ok out ∧ (e, mkWideRow df e) ∈ out ∧
      pivotCell df e 1 = some m1 ∧ pivotCell df e 2 = some m2 ∧
      liq m2 ≤ liq m1 ∧
      ∀ m ∈ dropnaEventLiquidity df, tk m = e → liq m ≤ liq m1 := by
  have hlen : 2 ≤ (groupSorted df e).length := by
    rw [(groupSorted_perm df e).length_eq]
    exact h2
  obtain ⟨m1, m2, t, heq⟩ : ∃ m1 m2 t, groupSorted df e = m1 :: m2 :: t := by
    cases hq : groupSorted df e with
    | nil => rw [hq] at hlen; simp at hlen
    | cons x xs =>
      cases hxs : xs with
      | nil => rw [hq, hxs] at hlen; simp at hlen
      | cons y ys => exact ⟨x, y, ys, rfl⟩
  have hp1 : pivotCell df e 1 = some m1 := by
    have h := pivotCell_eq_groupSorted df e 0
    rw [heq] at h
    simpa using h
  have hp2 : pivotCell df e 2 = some m2 := by
    have h := pivotCell_eq_groupSorted df e 1
    rw [heq] at h
    simpa using h
  have hpw := groupSorted_pairwise df e
  rw [heq] at hpw
  have hhead := (List.pairwise_cons.mp hpw).1
  have h21 : liq m2 ≤ liq m1 := hhead m2 (by simp)
  have hmax : ∀ m ∈ dropnaEventLiquidity df, tk m = e → liq m ≤ liq m1 := by
    intro m hm hme
    have hmg : m ∈ groupSorted df e := (mem_groupSorted df e m).mpr ⟨hm, hme⟩
    rw [heq] at hmg
    rcases List.mem_cons.mp hmg with rfl | hmg2
    · exact le_refl _
    · exact hhead m hmg2
  have hfil : (ranked df).filter (fun p => tk p.1 == e) =
      withRanks 1 ((groupSorted df e).take 2) := by
    rw [ranked, cumcountAux_filter, top2_filter]
    rfl
  have htake : (groupSorted df e).take 2 = [m1, m2] := by
    rw [heq]
    rfl
  have hm1r : (m1, 1) ∈ ranked df := by
    refine List.mem_of_mem_filter (p := fun p => tk p.1 == e) ?_
    rw [hfil, htake]
    simp [withRanks]
  have hm2r : (m2, 2) ∈ ranked df := by
    refine List.mem_of_mem_filter (p := fun p => tk p.1 == e) ?_
    rw [hfil, htake]
    simp [withRanks]
  have hany1 : ((ranked df).any fun p => p.2 == 1) = true :=
    List.any_eq_true.mpr ⟨(m1, 1), hm1r, by simp⟩
  have hany2 : ((ranked df).any fun p => p.2 == 2) = true :=
    List.any_eq_true.mpr ⟨(m2, 2), hm2r, by simp⟩
  have hok : get_top_2 df =
      Except.ok ((pivotIndex df).map fun e2 => (e2, mkWideRow df e2)) := by
    rw [get_top_2, if_pos (by simp [hany1, hany2])]
  have hm1g : m1 ∈ groupSorted df e := by rw [heq]; simp
  have hm1d := (mem_groupSorted df e m1).mp hm1g
  have hidx : e ∈ pivotIndex df :=
    (mem_pivotIndex df e).mpr (List.mem_map.mpr ⟨m1, hm1d.1, hm1d.2⟩)
  have hmem : (e, mkWideRow df e) ∈
      (pivotIndex df).map fun e2 => (e2, mkWideRow df e2) :=
    List.mem_map.mpr ⟨e, hidx, rfl⟩
  exact ⟨_, m1, m2, hok, hmem, hp1, hp2, h21, hmax⟩

/-- C1 witness: on the concrete frame dfA, event E1 has two qualifying
markets and the theorem applies. -/
theorem get_top_2_slot1_liq_ge_slot2_wit :
    2 ≤ ((dropnaEventLiquidity dfA).filter (fun m => tk m == "E1")).length ∧
    (∃ out m1 m2, get_top_2 dfA = Except.ok out ∧
      ("E1", mkWideRow dfA "E1") ∈ out ∧
      pivotCell dfA "E1" 1 = some m1 ∧ pivotCell dfA "E1" 2 = some m2 ∧
      liq m2 ≤ liq m1 ∧
      ∀ m ∈ dropnaEventLiquidity dfA, tk m = "E1" → liq m ≤ liq m1) :=
  ⟨by with_unfolding_all decide,
    get_top_2_slot1_liq_ge_slot2 dfA "E1" (by with_unfolding_all decide)⟩

/-- C2: the per-event ranking is stable: two qualifying rows of the same
event with exactly equal liquidity keep their input order inside the event's
sorted group, whose entries at positions r are exactly the rank r + 1 pivot
slots, so the earlier input row gets the smaller m_rank. -/
theorem get_top_2_stable_ties (df : List Market) (a b : Market)
    (hab : [a, b] <+ df) (qa : qualifies a = true) (qb : qualifies b = true)
    (ht : tk a = tk b) (hl : a.liquidity = b.liquidity) :
    [a, b] <+ groupSorted df (tk a) ∧
    ∀ r : Nat, pivotCell df (tk a) (r + 1) = ((groupSorted df (tk a)).take 2)[r]? := by
  constructor
  · have h1 : [a, b] <+ dropnaEventLiquidity df := by
      have h := hab.filter qualifies
      simpa [List.filter_cons, qa, qb] using h
    have hliq : liq b ≤ liq a := by
      rw [liq, liq, hl]
    have hrel : sortRel a b := Or.inr ⟨ht, hliq⟩
    have h2 : [a, b] <+ sortedDF df := List.pair_sublist_insertionSort hrel h1
    have h3 := h2.filter (fun m => tk m == tk a)
    simpa [List.filter_cons, ht] using h3
  · intro r
    exact pivotCell_eq_groupSorted df (tk a) r

/-- C2 witness: on the concrete frame dfB the rows mE1b and mE1c tie in
liquidity and keep their input order in the E1 group. -/
theorem get_top_2_stable_ties_wit :
    qualifies mE1b = true ∧ mE1b.liquidity = mE1c.liquidity ∧
    ([mE1b, mE1c] <+ groupSorted dfB (tk mE1b) ∧
      ∀ r : Nat,
        pivotCell dfB (tk mE1b) (r + 1) = ((groupSorted dfB (tk mE1b)).take 2)[r]?) :=
  ⟨rfl, rfl,
    get_top_2_stable_ties dfB mE1b mE1c
      (List.Sublist.cons mE1a (List.Sublist.refl [mE1b, mE1c])) rfl rfl rfl rfl⟩

/-- C5: the number of output rows of get_top_2 equals the number of distinct
event tickers having at least one market with non-null event ticker and
non-null liquidity. -/
theorem get_top_2_row_count (df : List Market) (out : List (String × WideRow))
    (h : get_top_2 df = Except.ok out) :
    out.length = ((dropnaEventLiquidity df).map tk).toFinset.card := by
  rw [get_top_2_ok_eq df out h, List.length_map]
  rw [← List.toFinset_card_of_nodup (pivotIndex_nodup df)]
  congr 1
  ext e
  simp only [List.mem_toFinset]
  exact mem_pivotIndex df e

/-- C5 witness: on the concrete frame dfA the output has one row per
qualifying ticker (E1 and E2; the null-ticker and null-liquidity rows and
hence ticker E3 contribute nothing). -/
theorem get_top_2_row_count_wit :
    get_top_2 dfA = Except.ok outA ∧
    outA.length = ((dropnaEventLiquidity dfA).map tk).toFinset.card :=
  ⟨by with_unfolding_all rfl,
    get_top_2_row_count dfA outA (by with_unfolding_all rfl)⟩

/-- C10: the rows of get_top_2's output are keyed by event ticker and appear
in strictly ascending lexicographic ticker order, whatever the input
order. -/
theorem get_top_2_index_ascending (df : List Market) (out : List (String × WideRow))
    (h : get_top_2 df = Except.ok out) :
    (out.map Prod.fst).Pairwise (· < ·) := by
  rw [get_top_2_ok_eq df out h, List.map_map]
  have hcomp : (Prod.fst ∘ fun e => (e, mkWideRow df e)) = id := funext fun e => rfl
  rw [hcomp, List.map_id]
  exact pivotIndex_pairwise_lt df

/-- C10 witness: on the concrete frame dfA, whose events arrive as E2 before
E1, the output is keyed E1 then E2, in ascending order. -/
theorem get_top_2_index_ascending_wit :
    get_top_2 dfA = Except.ok outA ∧ (outA.map Prod.fst).Pairwise (· < ·) :=
  ⟨by with_unfolding_all rfl,
    get_top_2_index_ascending dfA outA (by with_unfolding_all rfl)⟩
